import Mathlib

/-!
Shallow embedding of the transform/rendering core of the kiwi.js fork
(Kiwi.Geom.Matrix, Kiwi.Geom.Point, Kiwi.Geom.Transform, Kiwi.Transformable,
Kiwi.Camera, Kiwi.Components.Box2, Kiwi.GameObjects.Tilemap
.TileMapLayerDynamicOrthogonal, Kiwi.Renderers.TextureAtlasRenderer).

JavaScript numbers are embedded as exact rationals (ℚ); floating-point
rounding is out of scope, so properties stated "within tolerance" are settled
by exact equality, which implies any positive tolerance.  Mutating methods are
embedded as functions from the receiver state to the new receiver state.
`Math.cos` / `Math.sin` are abstracted as function parameters `cosf sinf`;
every concrete scenario below only ever evaluates them at rotation 0, where
`cosf 0 = 1` and `sinf 0 = 0` are the exact values of cosine and sine.
-/

namespace Kiwi

/-- Source `Kiwi.Geom.Point`: a pair of coordinates. -/
structure Point where
  x : ℚ
  y : ℚ
deriving DecidableEq, Repr

/-- Source `Kiwi.Geom.Matrix`: the six scalars of the 2×3 affine matrix
`[[a, c, tx], [b, d, ty], [0, 0, 1]]`. -/
structure Matrix where
  a : ℚ
  b : ℚ
  c : ℚ
  d : ℚ
  tx : ℚ
  ty : ℚ
deriving DecidableEq, Repr

namespace Matrix

/-- Source `Matrix.identity()` / the default constructor `new Matrix()`. -/
def identity : Matrix := ⟨1, 0, 0, 1, 0, 0⟩

/-- Source `Matrix.clone()`: a fresh matrix with the same six fields. -/
def clone (m : Matrix) : Matrix := ⟨m.a, m.b, m.c, m.d, m.tx, m.ty⟩

/-- Source `Matrix.setToMatrix(m)`: the receiver after copying all six fields of
the argument. -/
def setToMatrix (_m src : Matrix) : Matrix :=
  ⟨src.a, src.b, src.c, src.d, src.tx, src.ty⟩

/-- Source `Matrix.multiplyMatrix(b)`: builds and returns a fresh product matrix
`ret`; the receiver is not modified. -/
def multiplyMatrix (m b' : Matrix) : Matrix :=
  { a := m.a * b'.a + m.c * b'.b
    b := m.b * b'.a + m.d * b'.b
    c := m.a * b'.c + m.c * b'.d
    d := m.b * b'.c + m.d * b'.d
    tx := m.a * b'.tx + m.c * b'.ty + m.tx
    ty := m.b * b'.tx + m.d * b'.ty + m.ty }

/-- Source `Matrix.preMultiplyMatrix(b)`: the receiver after
`this.setToMatrix(b.clone().multiplyMatrix(this))`. -/
def preMultiplyMatrix (m b' : Matrix) : Matrix :=
  m.setToMatrix ((b'.clone).multiplyMatrix m)

/-- Source `Matrix.postMultiply(b)`: the body is `this.multiplyMatrix(b);` —
`multiplyMatrix` builds a fresh matrix and its result is discarded, so the
receiver state after the call is the receiver itself. -/
def postMultiply (m b' : Matrix) : Matrix :=
  let _ret := m.multiplyMatrix b'
  m

/-- Source `Matrix.transformPoint(pt)`: returns a fresh mapped point. -/
def transformPoint (m : Matrix) (pt : Point) : Point :=
  ⟨m.a * pt.x + m.c * pt.y + m.tx, m.b * pt.x + m.d * pt.y + m.ty⟩

/-- Source `Matrix.transformPointInPlace(pt)`: the point after the in-place update;
the stored values are the same as `transformPoint`. -/
def transformPointInPlace (m : Matrix) (pt : Point) : Point :=
  let x := pt.x
  let y := pt.y
  ⟨m.a * x + m.c * y + m.tx, m.b * x + m.d * y + m.ty⟩

/-- The determinant `a·d − b·c` (called `n` in `Matrix.invert`). -/
def det (m : Matrix) : ℚ := m.a * m.d - m.b * m.c

/-- Source `Matrix.invert()`: the receiver after the in-place inversion.  In the
source `this.tx` is assigned before `this.ty`, and both right-hand sides read
the not-yet-reassigned `this.ty`, so both use the old `ty`. -/
def invert (m : Matrix) : Matrix :=
  let a1 := m.a
  let b1 := m.b
  let c1 := m.c
  let d1 := m.d
  let tx1 := m.tx
  let n := a1 * d1 - b1 * c1
  { a := d1 / n
    b := -b1 / n
    c := -c1 / n
    d := a1 / n
    tx := (c1 * m.ty - d1 * tx1) / n
    ty := -(a1 * m.ty - b1 * tx1) / n }

/-- Source `Matrix.invertCopy()`: `this.clone().invert()`. -/
def invertCopy (m : Matrix) : Matrix := m.clone.invert

end Matrix

/-- Entrywise closeness of two matrices within `1e-9`, the tolerance named by
the specification for the inversion round-trip properties. -/
def Matrix.approxEq (m₁ m₂ : Matrix) : Prop :=
  |m₁.a - m₂.a| ≤ 1 / 10 ^ 9 ∧ |m₁.b - m₂.b| ≤ 1 / 10 ^ 9 ∧
  |m₁.c - m₂.c| ≤ 1 / 10 ^ 9 ∧ |m₁.d - m₂.d| ≤ 1 / 10 ^ 9 ∧
  |m₁.tx - m₂.tx| ≤ 1 / 10 ^ 9 ∧ |m₁.ty - m₂.ty| ≤ 1 / 10 ^ 9

instance (m₁ m₂ : Matrix) : Decidable (Matrix.approxEq m₁ m₂) := by
  unfold Matrix.approxEq; infer_instance

/-- Source `Kiwi.Components.Box2`: the hit-box component's own data — an offset
point and a dimensions point (both "pre transform"). -/
structure Box2 where
  offset : Point
  dimensions : Point
deriving DecidableEq, Repr

/-- Source `Box2.check(pt)` combined with `Box2.clean()`.  `_dirty` is set `true` in
the constructor and `clean()` never resets it, so every call recomputes
`_invertedTransformMatrix` as the `invertCopy` of the owner's concatenated
matrix (passed here as `ownerConcat`).  The containment test is the source's
`localPt.x > this._offset.x && localPt.x < this._dimensions.x &&
localPt.y > this._offset.y && localPt.y < this._dimensions.y`. -/
def Box2.check (box : Box2) (ownerConcat : Matrix) (pt : Point) : Bool :=
  let localPt := (ownerConcat.invertCopy).transformPoint pt
  localPt.x > box.offset.x && localPt.x < box.dimensions.x &&
    localPt.y > box.offset.y && localPt.y < box.dimensions.y

/-- The rectangle predicate as the claim words it: the local point lies
strictly inside `(offset.x, offset.x + dimensions.x) ×
(offset.y, offset.y + dimensions.y)`.  Stated from the claim, to be compared
with `Box2.check` above. -/
def Box2.claimedInside (box : Box2) (ownerConcat : Matrix) (pt : Point) : Prop :=
  let localPt := (ownerConcat.invertCopy).transformPoint pt
  box.offset.x < localPt.x ∧ localPt.x < box.offset.x + box.dimensions.x ∧
    box.offset.y < localPt.y ∧ localPt.y < box.offset.y + box.dimensions.y

instance (box : Box2) (m : Matrix) (pt : Point) :
    Decidable (Box2.claimedInside box m pt) := by
  unfold Box2.claimedInside; infer_instance

/-- One node of the `Kiwi.Geom.Transform` hierarchy: the fields of the
`Transform` class.  Nodes live in a store (a list of nodes) and reference
each other by index, modelling the JavaScript object references. -/
structure TNode where
  xy : Point
  scale : Point
  rotation : ℚ
  origin : Point
  pivotPoint : Point
  dirty : Bool
  matrix : Matrix
  cachedConcatenatedMatrix : Matrix
  parent : Option Nat
  children : List Nat
deriving DecidableEq, Repr

/-- A fresh `new Transform()`: `setTransform(0, 0, 1, 1, 0, 0, 0)` (which
sets `dirty = true`), fresh identity `_matrix` and
`_cachedConcatenatedMatrix`, no parent, no children. -/
def TNode.fresh : TNode :=
  { xy := ⟨0, 0⟩, scale := ⟨1, 1⟩, rotation := 0, origin := ⟨0, 0⟩,
    pivotPoint := ⟨0, 0⟩, dirty := true, matrix := Matrix.identity,
    cachedConcatenatedMatrix := Matrix.identity, parent := none,
    children := [] }

/-- The store of transform nodes: index `i` plays the role of the `i`-th
JavaScript `Transform` object. -/
abbrev Store := List TNode

/-- A node after the `this._dirty = true` assignment. -/
def TNode.markDirty (t : TNode) : TNode := { t with dirty := true }

namespace Transform

/-- Overwrite node `i` of the store (a no-op for an out-of-range index,
which never occurs in the configurations below). -/
def updateNode (s : Store) (i : Nat) (f : TNode → TNode) : Store :=
  s.modify f i

/-- The `dirty` setter for `val = true`: set `_dirty` on this node, then
cascade `e.dirty = true` to each element `e` of `_children` with `e !== this`.
The JavaScript recursion is embedded with an explicit `fuel` bound on the
recursion depth; every configuration below is settled with enough fuel that
the `0` case is never reached.  Besides the new store, the list of node
indices on which the setter body ran is returned, recording the order in
which the cascade visits nodes. -/
def dirtyTrue : Nat → Store → Nat → Store × List Nat
  | 0, s, _ => (s, [])
  | fuel + 1, s, i =>
    let s1 := updateNode s i TNode.markDirty
    match s[i]? with
    | none => (s1, [i])
    | some t =>
      t.children.foldl
        (fun acc e =>
          if e ≠ i then
            let r := dirtyTrue fuel acc.1 e
            (r.1, acc.2 ++ r.2)
          else acc)
        (s1, [i])

/-- Setter call `this.dirty = true` with the default recursion budget: the store length
bounds the depth of any acyclic descendant chain. -/
def setDirtyTrue (s : Store) (i : Nat) : Store := (dirtyTrue s.length s i).1

/-- Source `Transform.checkAncestor(transform)`: the entire body of the source
method is commented out (marked `@TODO: implement this`) and the method
returns `false` unconditionally. -/
def checkAncestor (_s : Store) (_i : Nat) (_t : Option Nat) : Bool := false

/-- The `parent` setter: `if (value) value._children.push(this);` happens
first and unconditionally; then `if (!this.checkAncestor(value)) {
this._parent = value; this.dirty = true; }`. -/
def setParent (s : Store) (i : Nat) (value : Option Nat) : Store :=
  let s1 := match value with
    | some p => updateNode s p (fun t => { t with children := t.children ++ [i] })
    | none => s
  if checkAncestor s1 i value then s1
  else
    let s2 := updateNode s1 i (fun t => { t with parent := value })
    setDirtyTrue s2 i

/-- The `x` setter: `this._xy.x = value; this.dirty = true;`. -/
def setX (s : Store) (i : Nat) (value : ℚ) : Store :=
  setDirtyTrue (updateNode s i (fun t => { t with xy := ⟨value, t.xy.y⟩ })) i

/-- Source `Transform.setXY(x, y)`: `this._xy.setTo(x, y); this.dirty = true;`. -/
def setXY (s : Store) (i : Nat) (x y : ℚ) : Store :=
  setDirtyTrue (updateNode s i (fun t => { t with xy := ⟨x, y⟩ })) i

/-- Source `Transform.setOrigin(x, y)`: sets `_origin` and `dirty = true`. -/
def setOrigin (s : Store) (i : Nat) (x y : ℚ) : Store :=
  setDirtyTrue (updateNode s i (fun t => { t with origin := ⟨x, y⟩ })) i

/-- Modelled from the spec: `Transform.setPivotPoint(x, y)` is declared on
`Kiwi.Transformable` (and called by `Camera._updatedStageSize`) but the
`Transform` file under `src` predates it and does not contain it.  Following
the specification ("origin and pivot are re-centered to half the new
dimensions and the camera is marked dirty") and the shape of the sibling
`setOrigin`, it sets the pivot point and marks the transform dirty. -/
def setPivotPoint (s : Store) (i : Nat) (x y : ℚ) : Store :=
  setDirtyTrue (updateNode s i (fun t => { t with pivotPoint := ⟨x, y⟩ })) i

/-- Source `Transform._performTransformation()`: the local matrix built from the
current field values (`cosf`/`sinf` abstract `Math.cos`/`Math.sin`). -/
def performTransformation (cosf sinf : ℚ → ℚ) (t : TNode) : Matrix :=
  let cos := cosf t.rotation
  let sin := sinf t.rotation
  { a := cos * t.scale.x
    b := -sin * t.scale.y
    c := sin * t.scale.x
    d := cos * t.scale.y
    tx := (((-t.pivotPoint.x * cos + -t.pivotPoint.y * sin + t.pivotPoint.x) *
              t.scale.x) + (-t.origin.x * t.scale.x + t.origin.x)) + t.xy.x
    ty := (((-t.pivotPoint.x * -sin + -t.pivotPoint.y * cos + t.pivotPoint.y) *
              t.scale.y) + (-t.origin.y * t.scale.y + t.origin.y)) + t.xy.y }

/-- Source `Transform.getConcatenatedMatrix()`.  If the node is dirty it runs
`_performTransformation`, copies `_matrix` into the cache, premultiplies by
the parent's (recursively cleaned) concatenated matrix when a parent exists,
and sets `dirty = false` (the setter with `false` cleans only this node);
otherwise it returns the cached matrix unchanged.  The recursion up the
parent chain carries an explicit `fuel` bound; `none` models the JavaScript
recursion never returning (only possible with a cyclic parent chain or a
dangling index). -/
def getConcatenatedMatrix (cosf sinf : ℚ → ℚ) :
    Nat → Store → Nat → Option (Matrix × Store)
  | 0, _, _ => none
  | fuel + 1, s, i =>
    match s[i]? with
    | none => none
    | some t =>
      if t.dirty then
        let mloc := performTransformation cosf sinf t
        let cached0 := (t.cachedConcatenatedMatrix).setToMatrix mloc
        match t.parent with
        | some p =>
          match getConcatenatedMatrix cosf sinf fuel s p with
          | none => none
          | some (pm, s') =>
            let cached := pm.multiplyMatrix cached0
            some (cached, updateNode s' i (fun u =>
              { u with matrix := mloc, cachedConcatenatedMatrix := cached,
                       dirty := false }))
        | none =>
          some (cached0, updateNode s i (fun u =>
            { u with matrix := mloc, cachedConcatenatedMatrix := cached0,
                     dirty := false }))
      else some (t.cachedConcatenatedMatrix, s)

end Transform

/-- Store `s'` differs from `s` at most by having set some dirty flags: every entry
is either the original node or the original node with `dirty := true`. -/
def MarkedFrom (s s' : Store) : Prop :=
  ∀ j : Nat, s'[j]? = s[j]? ∨ s'[j]? = TNode.markDirty <$> s[j]?

/-- The store is a single parent/child chain: node `0` is the root, node
`i + 1` has parent `i`, and each node's children list holds exactly its
successor (children are registered by the parent setter). -/
def ChainShape (s : Store) : Prop :=
  ∀ i < s.length,
    (s.getD i TNode.fresh).parent = (if i = 0 then none else some (i - 1)) ∧
    (s.getD i TNode.fresh).children =
      (if i + 1 < s.length then [i + 1] else [])

instance (s : Store) : Decidable (ChainShape s) := by
  unfold ChainShape; infer_instance

/-- The local matrix node `j` would build from its current field values. -/
def specLocal (cosf sinf : ℚ → ℚ) (s : Store) (j : Nat) : Matrix :=
  Transform.performTransformation cosf sinf (s.getD j TNode.fresh)

/-- The concatenation of the local matrices of chain nodes `0..j`, parent on
the left — the matrix a fully recomputed `getConcatenatedMatrix` denotes on a
chain-shaped store; it is a pure function of the current field values. -/
def specConcat (cosf sinf : ℚ → ℚ) (s : Store) : Nat → Matrix
  | 0 => specLocal cosf sinf s 0
  | j + 1 => (specConcat cosf sinf s j).multiplyMatrix
      (specLocal cosf sinf s (j + 1))

/-- Cache coherence for a chain-shaped store: every clean node caches the
concatenation of the current local matrices of its ancestors and itself, and
a clean node's parent is clean (the dirty cascade runs downward, so a dirty
parent always has dirty descendants). -/
def Inv (cosf sinf : ℚ → ℚ) (s : Store) : Prop :=
  ∀ j < s.length, (s.getD j TNode.fresh).dirty = false →
    (s.getD j TNode.fresh).cachedConcatenatedMatrix = specConcat cosf sinf s j ∧
    (0 < j → (s.getD (j - 1) TNode.fresh).dirty = false)

instance (cosf sinf : ℚ → ℚ) (s : Store) : Decidable (Inv cosf sinf s) := by
  unfold Inv; infer_instance

/-- Source `Kiwi.Camera` from the newer camera file: a `Transformable` (with its own
`_dirty` flag, initialised `true`) plus viewport width/height and the two
scratch matrices.  The camera's transform hierarchy lives in `store` with the
camera's own transform at index `0`.  `Transformable`'s constructor executes
`new Kiwi.Geom.Transform(this)`, but the `Transform` constructor takes no
parameter and ignores the owner, so no back-reference from the transform to
the camera exists. -/
structure Camera where
  width : ℚ
  height : ℚ
  dirty : Bool
  scratchNormal : Matrix
  scratchInverted : Matrix
  store : Store
deriving DecidableEq, Repr

namespace Camera

/-- Source `Camera._updatedStageSize(width, height)`: stores the new dimensions and
runs `this.transform.setOrigin(-width / 2, -height / 2)` followed by
`this.transform.setPivotPoint(-width / 2, -height / 2)`.  The camera's own
`_dirty` flag is not touched. -/
def updatedStageSize (cam : Camera) (width height : ℚ) : Camera :=
  { cam with
    width := width, height := height,
    store := Transform.setPivotPoint
      (Transform.setOrigin cam.store 0 (-width / 2) (-height / 2))
      0 (-width / 2) (-height / 2) }

/-- The `Camera` constructor: `super()` (fresh transform, `_dirty = true`,
scratch matrices `new Matrix()`), `this.transform.setXY(x, y)`, store the
dimensions, then `this._updatedStageSize(width, height)`. -/
def create (x y width height : ℚ) : Camera :=
  updatedStageSize
    { width := width, height := height, dirty := true,
      scratchNormal := Matrix.identity, scratchInverted := Matrix.identity,
      store := Transform.setXY [TNode.fresh] 0 x y }
    width height

/-- Source `Camera.clean()`: copy the transform's (freshly concatenated) matrix into
`_scratchMatrices.normal`, set `_scratchMatrices.inverted` to it and invert
in place, then `this.dirty = false`.  `none` models the concatenation never
returning (cyclic parent chain), which cannot occur below. -/
def clean (cosf sinf : ℚ → ℚ) (cam : Camera) : Option Camera :=
  match Transform.getConcatenatedMatrix cosf sinf cam.store.length cam.store 0 with
  | none => none
  | some (m, s') =>
    let normal := cam.scratchNormal.setToMatrix m
    some
      { cam with
        store := s'
        scratchNormal := normal
        scratchInverted := (cam.scratchInverted.setToMatrix normal).invert
        dirty := false }

/-- Source `Camera.transformStageToWorld(pt, copy)`: clean if dirty, then map the
point through `_scratchMatrices.inverted`.  The `copy` flag only selects
between a fresh point and in-place mutation; the coordinates returned are the
same, so the embedding returns the coordinates and the camera state. -/
def transformStageToWorld (cosf sinf : ℚ → ℚ) (cam : Camera) (pt : Point) :
    Option (Point × Camera) :=
  match (if cam.dirty then clean cosf sinf cam else some cam) with
  | none => none
  | some cam' => some (cam'.scratchInverted.transformPoint pt, cam')

/-- Source `Camera.transformWorldToStage(pt, copy)`: clean if dirty, then map the
point through `_scratchMatrices.normal`. -/
def transformWorldToStage (cosf sinf : ℚ → ℚ) (cam : Camera) (pt : Point) :
    Option (Point × Camera) :=
  match (if cam.dirty then clean cosf sinf cam else some cam) with
  | none => none
  | some cam' => some (cam'.scratchNormal.transformPoint pt, cam')

/-- A mutation of the camera's transform position (`camera.x = v`, the
`Transformable` setter, or equivalently `camera.transform.x = v`): it runs
the transform's `x` setter and touches nothing else on the camera — in
particular, nothing sets the camera's own `_dirty` flag. -/
def setTransformX (cam : Camera) (v : ℚ) : Camera :=
  { cam with store := Transform.setX cam.store 0 v }

end Camera

/-- Modelled from the spec: `Kiwi.Utils.GameMath.clamp(input, max, min)` is
not among the files under `src` (only its call sites in
`_calculateBoundaries` are); per the specification it clamps the input into
the valid coordinate range `[min, max]`. -/
def clamp (input mx mn : ℚ) : ℚ := max mn (min mx input)

/-- The per-layer data `_calculateBoundaries` reads: tile pixel sizes, the
map dimensions in tiles, and the placement offset of
`TileMapLayerDynamicOrthogonal`. -/
structure LayerParams where
  tileWidth : ℚ
  tileHeight : ℚ
  width : ℚ
  height : ℚ
  offsetX : ℚ
  offsetY : ℚ
deriving DecidableEq, Repr

/-- The temporary bounds `_calculateBoundaries` stores (`_startX`, `_startY`,
`_maxX`, `_maxY`). -/
structure Boundaries where
  startX : ℚ
  startY : ℚ
  maxX : ℚ
  maxY : ℚ
deriving DecidableEq, Repr

/-- Source `TileMapLayerDynamicOrthogonal._calculateBoundaries(camera, matrix)`:
the four stage corners `(0,0)–(W,0)–(W,H)–(0,H)` are mapped to world space
through `camera.transformStageToWorld(·, false)` (threading the camera state,
since the first call may clean it), then through the inverse of a clone of
the layer's concatenated `matrix`; the axis-aligned min/max is divided by
the tile sizes, floored/ceiled, and clamped into
`[offset, size + offset]` on each axis. -/
def calculateBoundaries (cosf sinf : ℚ → ℚ) (stageW stageH : ℚ)
    (layer : LayerParams) (cam : Camera) (matrix : Matrix) :
    Option (Boundaries × Camera) := do
  let (c1, cam) ← Camera.transformStageToWorld cosf sinf cam ⟨0, 0⟩
  let (c2, cam) ← Camera.transformStageToWorld cosf sinf cam ⟨stageW, 0⟩
  let (c3, cam) ← Camera.transformStageToWorld cosf sinf cam ⟨stageW, stageH⟩
  let (c4, cam) ← Camera.transformStageToWorld cosf sinf cam ⟨0, stageH⟩
  let m := matrix.clone.invert
  let c1 := m.transformPointInPlace c1
  let c2 := m.transformPointInPlace c2
  let c3 := m.transformPointInPlace c3
  let c4 := m.transformPointInPlace c4
  let startX := min (min (min c1.x c2.x) c3.x) c4.x
  let startY := min (min (min c1.y c2.y) c3.y) c4.y
  let maxX := max (max (max c1.x c2.x) c3.x) c4.x
  let maxY := max (max (max c1.y c2.y) c3.y) c4.y
  let startX := startX / layer.tileWidth
  let startY := startY / layer.tileHeight
  let maxX := maxX / layer.tileWidth
  let maxY := maxY / layer.tileHeight
  let startX : ℚ := (⌊startX⌋ : ℤ)
  let startY : ℚ := (⌊startY⌋ : ℤ)
  let maxX : ℚ := (⌈maxX⌉ : ℤ)
  let maxY : ℚ := (⌈maxY⌉ : ℤ)
  let startX := clamp startX (layer.width + layer.offsetX) layer.offsetX
  let startY := clamp startY (layer.height + layer.offsetY) layer.offsetY
  let maxX := clamp maxX (layer.width + layer.offsetX) layer.offsetX
  let maxY := clamp maxY (layer.height + layer.offsetY) layer.offsetY
  pure (⟨startX, startY, maxX, maxY⟩, cam)

/-- An atlas cell rectangle `{x, y, w, h}` in atlas pixel space. -/
structure AtlasCell where
  x : ℚ
  y : ℚ
  w : ℚ
  h : ℚ
deriving DecidableEq, Repr

/-- Source `TextureAtlasRenderer.addToBatch(gl, entity, camera)`: skip when
`entity.alpha <= 0`; otherwise map the quad corners `(0,0)`, `(w,0)`,
`(w,h)`, `(0,h)` through the entity's concatenated matrix `m` and push the
twenty vertex scalars onto `_vertexBuffer.items` (`items`).  Far-edge texture
coordinates are `cell.x + cell.w` and `cell.y + cell.h`. -/
def addToBatch (items : List ℚ) (m : Matrix) (cell : AtlasCell) (alpha : ℚ) :
    List ℚ :=
  if alpha ≤ 0 then items
  else
    let pt1 := m.transformPointInPlace ⟨0, 0⟩
    let pt2 := m.transformPointInPlace ⟨cell.w, 0⟩
    let pt3 := m.transformPointInPlace ⟨cell.w, cell.h⟩
    let pt4 := m.transformPointInPlace ⟨0, cell.h⟩
    items ++
      [pt1.x, pt1.y, cell.x, cell.y, alpha,
       pt2.x, pt2.y, cell.x + cell.w, cell.y, alpha,
       pt3.x, pt3.y, cell.x + cell.w, cell.y + cell.h, alpha,
       pt4.x, pt4.y, cell.x, cell.y + cell.h, alpha]

/-- The vertex scalars `TileMapLayerDynamicOrthogonal.renderGL` pushes for
one tile at pixel position `(tx, ty)`: corners mapped through the layer's
concatenated matrix `m`, far-edge texture coordinates inset by one
(`cell.x + cell.w - 1`, `cell.y + cell.h - 1`). -/
def tileVertexItems (m : Matrix) (cell : AtlasCell) (alpha : ℚ) (tx ty : ℚ) :
    List ℚ :=
  let c1 := m.transformPointInPlace ⟨tx, ty⟩
  let c2 := m.transformPointInPlace ⟨tx + cell.w, ty⟩
  let c3 := m.transformPointInPlace ⟨tx + cell.w, ty + cell.h⟩
  let c4 := m.transformPointInPlace ⟨tx, ty + cell.h⟩
  [c1.x, c1.y, cell.x, cell.y, alpha,
   c2.x, c2.y, cell.x + cell.w - 1, cell.y, alpha,
   c3.x, c3.y, cell.x + cell.w - 1, cell.y + cell.h - 1, alpha,
   c4.x, c4.y, cell.x, cell.y + cell.h - 1, alpha]

/-- Source `Math.cos` restricted to the scenarios below: every rotation occurring in
them is `0`, and `cos 0 = 1` exactly. -/
def cos0 : ℚ → ℚ := fun _ => 1

/-- Source `Math.sin` restricted to the scenarios below: every rotation occurring in
them is `0`, and `sin 0 = 0` exactly. -/
def sin0 : ℚ → ℚ := fun _ => 0

/-- The children list of node `p` (the observable contents of
`_children`). -/
def childrenOf (s : Store) (p : Nat) : List Nat :=
  (s.getD p TNode.fresh).children

/-- A store holding one fresh transform. -/
def soloStore : Store := [TNode.fresh]

/-- A chain of three transforms built the way the source builds hierarchies:
three fresh transforms, then `t1.parent = t0` and `t2.parent = t1` through
the parent setter. -/
def chain3 : Store :=
  Transform.setParent (Transform.setParent [TNode.fresh, TNode.fresh, TNode.fresh] 1 (some 0)) 2 (some 1)

/-- A two-node store after assigning `t1.parent = t0` twice in a row. -/
def doubleParented : Store :=
  Transform.setParent (Transform.setParent [TNode.fresh, TNode.fresh] 1 (some 0)) 1 (some 0)

/-- The camera of the staleness scenario after its first stage→world
conversion: `Camera.create 0 0 800 600` converted once (which cleans it).
The `getD` fallback is never taken: the conversion is proved to return
`some` with exactly this camera. -/
def staleCam1 : Camera :=
  ((Camera.transformStageToWorld cos0 sin0 (Camera.create 0 0 800 600)
      ⟨5, 5⟩).map Prod.snd).getD (Camera.create 0 0 800 600)

/-- The staleness scenario camera after the subsequent transform mutation
`camera.transform.x = 100`. -/
def staleCam2 : Camera := Camera.setTransformX staleCam1 100

/-- The 100×100 tile layer of the visible-range scenario: tile size 32×32,
placement offset `(0, 0)`. -/
def layer100 : LayerParams :=
  { tileWidth := 32, tileHeight := 32, width := 100, height := 100,
    offsetX := 0, offsetY := 0 }

/-- The camera of the visible-range scenario, written out: what
`Camera.create 0 0 800 600` evaluates to (proved below). -/
def c6CamDirty : Camera :=
  { width := 800
    height := 600
    dirty := true
    scratchNormal := Matrix.identity
    scratchInverted := Matrix.identity
    store := [{ TNode.fresh with
                xy := ⟨0, 0⟩
                origin := ⟨-400, -300⟩
                pivotPoint := ⟨-400, -300⟩
                dirty := true }] }

/-- The visible-range scenario camera after its first conversion cleans it:
both scratch matrices are the identity (the origin/pivot contributions cancel
at scale 1 and rotation 0) and all dirty flags are cleared. -/
def c6CamClean : Camera :=
  { width := 800
    height := 600
    dirty := false
    scratchNormal := Matrix.identity
    scratchInverted := Matrix.identity
    store := [{ TNode.fresh with
                xy := ⟨0, 0⟩
                origin := ⟨-400, -300⟩
                pivotPoint := ⟨-400, -300⟩
                dirty := false }] }

/-- A camera with a single fresh transform, used to instantiate the resize
theorem. -/
def simpleCam : Camera :=
  { width := 10, height := 10, dirty := true,
    scratchNormal := Matrix.identity, scratchInverted := Matrix.identity,
    store := [TNode.fresh] }

/-- Two nodes agreeing on every field `_performTransformation` reads. -/
def sameLocal (t t' : TNode) : Prop :=
  t.xy = t'.xy ∧ t.scale = t'.scale ∧ t.rotation = t'.rotation ∧
    t.origin = t'.origin ∧ t.pivotPoint = t'.pivotPoint

end Kiwi
open Kiwi

set_option maxRecDepth 8000

section Helpers

theorem matrix_clone_eq (m : Kiwi.Matrix) : m.clone = m := rfl

theorem matrix_setToMatrix_eq (m src : Kiwi.Matrix) : m.setToMatrix src = src := rfl

theorem matrix_mul_assoc (x y z : Kiwi.Matrix) :
    (x.multiplyMatrix y).multiplyMatrix z = x.multiplyMatrix (y.multiplyMatrix z) := by
  simp only [Kiwi.Matrix.multiplyMatrix, Kiwi.Matrix.mk.injEq]
  refine ⟨?_, ?_, ?_, ?_, ?_, ?_⟩ <;> ring

theorem matrix_one_mul (m : Kiwi.Matrix) :
    Kiwi.Matrix.identity.multiplyMatrix m = m := by
  obtain ⟨a, b, c, d, tx, ty⟩ := m
  simp only [Kiwi.Matrix.multiplyMatrix, Kiwi.Matrix.identity, Kiwi.Matrix.mk.injEq]
  refine ⟨?_, ?_, ?_, ?_, ?_, ?_⟩ <;> ring

theorem matrix_mul_invert (m : Kiwi.Matrix) (h : m.det ≠ 0) :
    m.multiplyMatrix m.invert = Kiwi.Matrix.identity := by
  obtain ⟨a, b, c, d, tx, ty⟩ := m
  have hn : a * d - b * c ≠ 0 := h
  simp only [Kiwi.Matrix.multiplyMatrix, Kiwi.Matrix.invert, Kiwi.Matrix.identity,
    Kiwi.Matrix.mk.injEq]
  refine ⟨?_, ?_, ?_, ?_, ?_, ?_⟩ <;> field_simp <;> ring

theorem matrix_det_invert (m : Kiwi.Matrix) (h : m.det ≠ 0) :
    m.invert.det = (m.det)⁻¹ := by
  obtain ⟨a, b, c, d, tx, ty⟩ := m
  have hn : a * d - b * c ≠ 0 := h
  simp only [Kiwi.Matrix.det, Kiwi.Matrix.invert] at *
  field_simp
  exact Or.inl (by ring)

theorem matrix_invert_invert (m : Kiwi.Matrix) (h : m.det ≠ 0) :
    m.invert.invert = m := by
  have hA : m.invert.det ≠ 0 := by
    rw [matrix_det_invert m h]; exact inv_ne_zero h
  calc m.invert.invert
      = Kiwi.Matrix.identity.multiplyMatrix m.invert.invert := (matrix_one_mul _).symm
    _ = (m.multiplyMatrix m.invert).multiplyMatrix m.invert.invert := by
        rw [matrix_mul_invert m h]
    _ = m.multiplyMatrix (m.invert.multiplyMatrix m.invert.invert) := matrix_mul_assoc ..
    _ = m.multiplyMatrix Kiwi.Matrix.identity := by rw [matrix_mul_invert m.invert hA]
    _ = m := by
        obtain ⟨a, b, c, d, tx, ty⟩ := m
        simp only [Kiwi.Matrix.multiplyMatrix, Kiwi.Matrix.identity, Kiwi.Matrix.mk.injEq]
        refine ⟨?_, ?_, ?_, ?_, ?_, ?_⟩ <;> ring

theorem matrix_approxEq_of_eq {m₁ m₂ : Kiwi.Matrix} (h : m₁ = m₂) :
    m₁.approxEq m₂ := by
  subst h
  unfold Kiwi.Matrix.approxEq
  norm_num

theorem markedFrom_refl (s : Store) : MarkedFrom s s := fun _ => Or.inl rfl

theorem markDirty_markDirty (t : TNode) : t.markDirty.markDirty = t.markDirty := rfl

theorem markedFrom_trans {s t u : Store} (h1 : MarkedFrom s t) (h2 : MarkedFrom t u) :
    MarkedFrom s u := by
  intro j
  rcases h2 j with h | h <;> rcases h1 j with h' | h'
  · exact Or.inl (h.trans h')
  · exact Or.inr (h.trans h')
  · rw [h, h']
    exact Or.inr rfl
  · right
    rw [h, h']
    cases s[j]? <;> simp [TNode.markDirty]

theorem markedFrom_updateMark (s : Store) (i : Nat) :
    MarkedFrom s (Transform.updateNode s i TNode.markDirty) := by
  intro j
  by_cases hij : i = j
  · subst hij
    right
    simp [Transform.updateNode, List.getElem?_modify]
  · left
    simp [Transform.updateNode, List.getElem?_modify, hij]

theorem markedFrom_foldl {s : Store} {α : Type}
    (f : Store × List α → Nat → Store × List α)
    (hf : ∀ acc e, MarkedFrom s acc.1 → MarkedFrom s (f acc e).1) :
    ∀ (l : List Nat) (acc : Store × List α), MarkedFrom s acc.1 →
      MarkedFrom s (l.foldl f acc).1 := by
  intro l
  induction l with
  | nil => intro acc hacc; exact hacc
  | cons e rest ih =>
    intro acc hacc
    rw [List.foldl_cons]
    exact ih (f acc e) (hf acc e hacc)

theorem markedFrom_dirtyTrue : ∀ (fuel : Nat) (s : Store) (i : Nat),
    MarkedFrom s (Transform.dirtyTrue fuel s i).1 := by
  intro fuel
  induction fuel with
  | zero => intro s i; exact markedFrom_refl s
  | succ f ih =>
    intro s i
    rw [Transform.dirtyTrue]
    cases h : s[i]? with
    | none => simpa [h] using markedFrom_updateMark s i
    | some t =>
      simp only [h]
      apply markedFrom_foldl
      · intro acc e hacc
        by_cases he : e ≠ i
        · simpa [he] using markedFrom_trans hacc (ih acc.1 e)
        · simpa [he] using hacc
      · exact markedFrom_updateMark s i

theorem markedFrom_setDirtyTrue (s : Store) (i : Nat) :
    MarkedFrom s (Transform.setDirtyTrue s i) :=
  markedFrom_dirtyTrue s.length s i

theorem length_eq_of_markedFrom {s s' : Store} (h : MarkedFrom s s') :
    s'.length = s.length := by
  have hs : ∀ j : Nat, s'[j]? = none ↔ s[j]? = none := by
    intro j
    rcases h j with h' | h' <;> rw [h']
    all_goals cases hsj : s[j]? <;> simp
  have h1 : s'.length ≤ s.length :=
    List.getElem?_eq_none_iff.mp ((hs s.length).mpr (List.getElem?_eq_none_iff.mpr le_rfl))
  have h2 : s.length ≤ s'.length :=
    List.getElem?_eq_none_iff.mp ((hs s'.length).mp (List.getElem?_eq_none_iff.mpr le_rfl))
  omega

theorem dirtyTrue_getElem_self (fuel : Nat) (s : Store) (i : Nat) (hf : 0 < fuel) :
    (Transform.dirtyTrue fuel s i).1[i]? = TNode.markDirty <$> s[i]? := by
  obtain ⟨f, rfl⟩ : ∃ f, fuel = f + 1 := ⟨fuel - 1, by omega⟩
  rw [Transform.dirtyTrue]
  cases h : s[i]? with
  | none => simp [h, Transform.updateNode, List.getElem?_modify]
  | some t =>
    simp only [h]
    have hM : MarkedFrom (Transform.updateNode s i TNode.markDirty)
        ((t.children).foldl
          (fun acc e =>
            if e ≠ i then
              let r := Transform.dirtyTrue f acc.1 e
              (r.1, acc.2 ++ r.2)
            else acc)
          (Transform.updateNode s i TNode.markDirty, [i])).1 := by
      apply markedFrom_foldl
      · intro acc e hacc
        by_cases he : e ≠ i
        · simpa [he] using markedFrom_trans hacc (markedFrom_dirtyTrue f acc.1 e)
        · simpa [he] using hacc
      · exact markedFrom_refl _
    have hu : (Transform.updateNode s i TNode.markDirty)[i]? =
        TNode.markDirty <$> s[i]? := by
      simp [Transform.updateNode, List.getElem?_modify]
    rcases hM i with h' | h'
    · rw [h', hu, h]
    · rw [h', hu, h]
      simp [markDirty_markDirty]

theorem setDirtyTrue_getElem_self (s : Store) (i : Nat) (h : 0 < s.length) :
    (Transform.setDirtyTrue s i)[i]? = TNode.markDirty <$> s[i]? :=
  dirtyTrue_getElem_self s.length s i h

theorem getElem_of_lt (s : Store) (j : Nat) (hj : j < s.length) :
    s[j]? = some (s.getD j TNode.fresh) := by
  rw [List.getD_eq_getElem?_getD]
  cases hx : s[j]? with
  | none => rw [List.getElem?_eq_none_iff] at hx; omega
  | some t => rfl

theorem sameLocal_refl (t : TNode) : sameLocal t t := ⟨rfl, rfl, rfl, rfl, rfl⟩

theorem performTransformation_congr (cosf sinf : ℚ → ℚ) {t t' : TNode}
    (h : sameLocal t t') :
    Transform.performTransformation cosf sinf t =
      Transform.performTransformation cosf sinf t' := by
  obtain ⟨h1, h2, h3, h4, h5⟩ := h
  simp only [Transform.performTransformation, h1, h2, h3, h4, h5]

theorem specConcat_congr (cosf sinf : ℚ → ℚ) {s s' : Store} :
    ∀ j : Nat, (∀ m : Nat, m ≤ j →
        sameLocal (s'.getD m TNode.fresh) (s.getD m TNode.fresh)) →
      specConcat cosf sinf s' j = specConcat cosf sinf s j := by
  intro j
  induction j with
  | zero =>
    intro h
    simp only [specConcat, specLocal]
    exact performTransformation_congr cosf sinf (h 0 le_rfl)
  | succ n ih =>
    intro h
    simp only [specConcat, specLocal]
    rw [ih (fun m hm => h m (by omega)),
      performTransformation_congr cosf sinf (h (n + 1) le_rfl)]

theorem chainShape_of_pointwise {s s' : Store} (hcs : ChainShape s)
    (hlen : s'.length = s.length)
    (hpt : ∀ j : Nat, j < s.length →
      (s'.getD j TNode.fresh).parent = (s.getD j TNode.fresh).parent ∧
      (s'.getD j TNode.fresh).children = (s.getD j TNode.fresh).children) :
    ChainShape s' := by
  intro j hj
  rw [hlen] at hj
  obtain ⟨hp, hc⟩ := hpt j hj
  obtain ⟨hp0, hc0⟩ := hcs j hj
  rw [hlen, hp, hc, hp0, hc0]
  exact ⟨rfl, rfl⟩

theorem markedFrom_fields {s s' : Store} (h : MarkedFrom s s') (j : Nat)
    (hj : j < s.length) :
    sameLocal (s'.getD j TNode.fresh) (s.getD j TNode.fresh) ∧
    (s'.getD j TNode.fresh).parent = (s.getD j TNode.fresh).parent ∧
    (s'.getD j TNode.fresh).children = (s.getD j TNode.fresh).children := by
  have h0 : s[j]? = some (s.getD j TNode.fresh) := getElem_of_lt s j hj
  rcases h j with h' | h' <;>
    rw [List.getD_eq_getElem?_getD (l := s'), h', h0] <;>
    exact ⟨sameLocal_refl _, rfl, rfl⟩

theorem chainShape_markedFrom {s s' : Store} (hcs : ChainShape s)
    (h : MarkedFrom s s') : ChainShape s' :=
  chainShape_of_pointwise hcs (length_eq_of_markedFrom h)
    (fun m hm => (markedFrom_fields h m hm).2)

end Helpers
section ChainHelpers

theorem dirtyTrue_chain : ∀ (fuel : Nat) (s : Store) (i : Nat), ChainShape s →
    s.length - i ≤ fuel → ∀ j : Nat,
      (Transform.dirtyTrue fuel s i).1[j]? =
        if i ≤ j then TNode.markDirty <$> s[j]? else s[j]? := by
  intro fuel
  induction fuel with
  | zero =>
    intro s i _ hfuel j
    rw [Transform.dirtyTrue]
    by_cases hij : i ≤ j
    · have hn : s[j]? = none := List.getElem?_eq_none_iff.mpr (by omega)
      simp [hij, hn]
    · simp [hij]
  | succ f ih =>
    intro s i hcs hfuel j
    rw [Transform.dirtyTrue]
    by_cases hi : i < s.length
    case neg =>
      have hnone : s[i]? = none := List.getElem?_eq_none_iff.mpr (by omega)
      simp only [hnone]
      by_cases hij : i ≤ j
      · have hjn : s[j]? = none := List.getElem?_eq_none_iff.mpr (by omega)
        simp [hij, hjn, Transform.updateNode, List.getElem?_modify]
      · have hne : ¬ i = j := by omega
        simp [hij, hne, Transform.updateNode, List.getElem?_modify]
    case pos =>
      have h0 : s[i]? = some (s.getD i TNode.fresh) := getElem_of_lt s i hi
      obtain ⟨_, hch⟩ := hcs i hi
      simp only [h0, hch]
      have hs1 : ∀ m : Nat, (Transform.updateNode s i TNode.markDirty)[m]? =
          if i = m then TNode.markDirty <$> s[m]? else s[m]? := by
        intro m
        by_cases him : i = m <;>
          simp [Transform.updateNode, List.getElem?_modify, him]
      by_cases hsucc : i + 1 < s.length
      · simp only [if_pos hsucc, List.foldl_cons, List.foldl_nil,
          if_pos (by omega : (i + 1 : Nat) ≠ i)]
        have hcs1 : ChainShape (Transform.updateNode s i TNode.markDirty) :=
          chainShape_markedFrom hcs (markedFrom_updateMark s i)
        have hlen1 : (Transform.updateNode s i TNode.markDirty).length = s.length :=
          length_eq_of_markedFrom (markedFrom_updateMark s i)
        have := ih (Transform.updateNode s i TNode.markDirty) (i + 1) hcs1
          (by omega) j
        rw [this]
        by_cases h1j : i + 1 ≤ j
        · have hij : i ≤ j := by omega
          have hne : ¬ i = j := by omega
          rw [if_pos h1j, if_pos hij, hs1 j, if_neg hne]
        · by_cases hij : i ≤ j
          · have hej : i = j := by omega
            rw [if_neg h1j, if_pos hij, hs1 j, if_pos hej]
          · have hne : ¬ i = j := by omega
            rw [if_neg h1j, if_neg hij, hs1 j, if_neg hne]
      · simp only [if_neg hsucc, List.foldl_nil]
        rw [hs1 j]
        by_cases hij : i ≤ j
        · by_cases hej : i = j
          · rw [if_pos hej, if_pos hij]
          · have hjn : s[j]? = none := List.getElem?_eq_none_iff.mpr (by omega)
            rw [if_neg hej, if_pos hij, hjn]
            rfl
        · have hne : ¬ i = j := by omega
          rw [if_neg hne, if_neg hij]

theorem chainShape_updateXY (s : Store) (k : Nat) (v : ℚ) (hcs : ChainShape s) :
    ChainShape (Transform.updateNode s k (fun t => { t with xy := ⟨v, t.xy.y⟩ })) := by
  apply chainShape_of_pointwise hcs
  · simp [Transform.updateNode, List.length_modify]
  · intro m hm
    have h0m : s[m]? = some (s.getD m TNode.fresh) := getElem_of_lt s m hm
    rw [List.getD_eq_getElem?_getD
        (l := Transform.updateNode s k (fun t => { t with xy := ⟨v, t.xy.y⟩ }))]
    rw [Transform.updateNode, List.getElem?_modify, h0m]
    by_cases hkm : k = m
    · simp [hkm]
    · simp [hkm]

theorem setX_getElem (s : Store) (k : Nat) (v : ℚ) (hcs : ChainShape s) :
    ∀ j : Nat, (Transform.setX s k v)[j]? =
      if k ≤ j then
        TNode.markDirty <$>
          (Transform.updateNode s k (fun t => { t with xy := ⟨v, t.xy.y⟩ }))[j]?
      else (Transform.updateNode s k (fun t => { t with xy := ⟨v, t.xy.y⟩ }))[j]? := by
  intro j
  have hlen : (Transform.updateNode s k (fun t => { t with xy := ⟨v, t.xy.y⟩ })).length
      = s.length := by
    simp [Transform.updateNode, List.length_modify]
  rw [Transform.setX, Transform.setDirtyTrue,
    dirtyTrue_chain _ _ _ (chainShape_updateXY s k v hcs) (by omega) j]

theorem setX_length (s : Store) (k : Nat) (v : ℚ) :
    (Transform.setX s k v).length = s.length := by
  rw [Transform.setX, Transform.setDirtyTrue]
  rw [length_eq_of_markedFrom (markedFrom_dirtyTrue _ _ _)]
  simp [Transform.updateNode, List.length_modify]

theorem setX_getElem_lt (s : Store) (k : Nat) (v : ℚ) (hcs : ChainShape s)
    (j : Nat) (hjk : j < k) :
    (Transform.setX s k v)[j]? = s[j]? := by
  have hne : ¬ k = j := by omega
  rw [setX_getElem s k v hcs j, if_neg (by omega), Transform.updateNode,
    List.getElem?_modify]
  cases hsj : s[j]? with
  | none => rfl
  | some t => simp [hne]

theorem setX_dirty_from (s : Store) (k : Nat) (v : ℚ) (hcs : ChainShape s) :
    ∀ m : Nat, k ≤ m → m < s.length →
      ((Transform.setX s k v).getD m TNode.fresh).dirty = true := by
  intro m hkm hm
  have h0m : s[m]? = some (s.getD m TNode.fresh) := getElem_of_lt s m hm
  rw [List.getD_eq_getElem?_getD, setX_getElem s k v hcs m, if_pos hkm,
    Transform.updateNode, List.getElem?_modify, h0m]
  by_cases hke : k = m
  · simp only [hke, if_pos, Option.map_some, Option.getD_some]
    rfl
  · simp only [hke, if_false, Option.map_some, Option.getD_some]
    rfl

theorem setX_getD_xy (s : Store) (k : Nat) (v : ℚ) (hcs : ChainShape s)
    (hk : k < s.length) :
    ((Transform.setX s k v).getD k TNode.fresh).xy.x = v := by
  have h0 : s[k]? = some (s.getD k TNode.fresh) := getElem_of_lt s k hk
  rw [List.getD_eq_getElem?_getD, setX_getElem s k v hcs k, if_pos le_rfl,
    Transform.updateNode, List.getElem?_modify, h0]
  simp only [if_pos, Option.map_some, Option.getD_some]
  rfl

theorem chainShape_setX (s : Store) (k : Nat) (v : ℚ) (hcs : ChainShape s) :
    ChainShape (Transform.setX s k v) := by
  rw [Transform.setX, Transform.setDirtyTrue]
  exact chainShape_markedFrom (chainShape_updateXY s k v hcs)
    (markedFrom_dirtyTrue _ _ _)

theorem inv_setX (cosf sinf : ℚ → ℚ) (s : Store) (k : Nat) (v : ℚ)
    (hcs : ChainShape s) (hinv : Inv cosf sinf s) :
    Inv cosf sinf (Transform.setX s k v) := by
  intro j hj hclean
  rw [setX_length] at hj
  by_cases hkj : k ≤ j
  · exfalso
    rw [setX_dirty_from s k v hcs j hkj hj] at hclean
    simp at hclean
  · have hjk : j < k := by omega
    have hgd : ∀ m : Nat, m < k →
        (Transform.setX s k v).getD m TNode.fresh = s.getD m TNode.fresh := by
      intro m hm
      rw [List.getD_eq_getElem?_getD, setX_getElem_lt s k v hcs m hm,
        ← List.getD_eq_getElem?_getD]
    rw [hgd j hjk] at hclean ⊢
    obtain ⟨hcache, hpar⟩ := hinv j hj hclean
    have hcongr : specConcat cosf sinf (Transform.setX s k v) j =
        specConcat cosf sinf s j := by
      apply specConcat_congr
      intro m hm
      rw [hgd m (by omega)]
      exact sameLocal_refl _
    constructor
    · rw [hcache, hcongr]
    · intro hj0
      rw [hgd (j - 1) (by omega)]
      exact hpar hj0

theorem getConcat_chain (cosf sinf : ℚ → ℚ) :
    ∀ (j : Nat) (s : Store) (fuel : Nat), ChainShape s → Inv cosf sinf s →
      j < s.length → j < fuel →
      ∃ s', Transform.getConcatenatedMatrix cosf sinf fuel s j =
        some (specConcat cosf sinf s j, s') := by
  intro j
  induction j with
  | zero =>
    intro s fuel hcs hinv hj hfuel
    obtain ⟨f, rfl⟩ : ∃ f, fuel = f + 1 := ⟨fuel - 1, by omega⟩
    rw [Transform.getConcatenatedMatrix]
    have h0 : s[0]? = some (s.getD 0 TNode.fresh) := getElem_of_lt s 0 hj
    obtain ⟨hpar, _⟩ := hcs 0 hj
    simp only [h0]
    by_cases hd : (s.getD 0 TNode.fresh).dirty
    · rw [if_pos hd]
      simp only [hpar, if_pos, matrix_setToMatrix_eq]
      exact ⟨_, rfl⟩
    · rw [if_neg hd]
      refine ⟨s, ?_⟩
      have hinv0 := hinv 0 hj (by simpa using hd)
      rw [hinv0.1]
  | succ n ihn =>
    intro s fuel hcs hinv hj hfuel
    obtain ⟨f, rfl⟩ : ∃ f, fuel = f + 1 := ⟨fuel - 1, by omega⟩
    rw [Transform.getConcatenatedMatrix]
    have h0 : s[n + 1]? = some (s.getD (n + 1) TNode.fresh) :=
      getElem_of_lt s (n + 1) hj
    obtain ⟨hpar, _⟩ := hcs (n + 1) hj
    simp only [h0]
    by_cases hd : (s.getD (n + 1) TNode.fresh).dirty
    · rw [if_pos hd]
      have hpar' : (s.getD (n + 1) TNode.fresh).parent = some n := by
        rw [hpar]
        simp
      simp only [hpar', matrix_setToMatrix_eq]
      obtain ⟨s₁, hrec⟩ := ihn s f hcs hinv (by omega) (by omega)
      rw [hrec]
      exact ⟨_, rfl⟩
    · rw [if_neg hd]
      refine ⟨s, ?_⟩
      have hinvn := hinv (n + 1) hj (by simpa using hd)
      rw [hinvn.1]

theorem setParent_appends_child (s : Store) (i p : Nat) (hp : p < s.length) :
    childrenOf (Transform.setParent s i (some p)) p = childrenOf s p ++ [i] := by
  have h0 : s[p]? = some (s.getD p TNode.fresh) := getElem_of_lt s p hp
  set t0 := s.getD p TNode.fresh with ht0
  set s1 := Transform.updateNode s p
    (fun t => { t with children := t.children ++ [i] }) with hs1
  have h1 : s1[p]? = some { t0 with children := t0.children ++ [i] } := by
    simp [hs1, Transform.updateNode, List.getElem?_modify, h0]
  set s2 := Transform.updateNode s1 i (fun t => { t with parent := some p }) with hs2
  have h2 : ∃ t2, s2[p]? = some t2 ∧ t2.children = t0.children ++ [i] := by
    by_cases hip : i = p
    · subst hip
      refine ⟨{ { t0 with children := t0.children ++ [i] } with parent := some i }, ?_, rfl⟩
      simp [hs2, Transform.updateNode, List.getElem?_modify, h1]
    · refine ⟨{ t0 with children := t0.children ++ [i] }, ?_, rfl⟩
      simp [hs2, Transform.updateNode, List.getElem?_modify, hip, h1]
  obtain ⟨t2, h2some, h2ch⟩ := h2
  have hsp : Transform.setParent s i (some p) = Transform.setDirtyTrue s2 i := by
    simp only [Transform.setParent, Transform.checkAncestor, if_false, Bool.false_eq_true,
      hs2, hs1]
  rw [hsp]
  have hM := markedFrom_setDirtyTrue s2 i
  rcases hM p with h' | h' <;>
    rw [childrenOf, List.getD_eq_getElem?_getD, h', h2some] <;>
    simp [TNode.markDirty, h2ch, childrenOf, ht0]

end ChainHelpers
section CameraHelpers

theorem trsw_clean_state (cosf sinf : ℚ → ℚ) (cam : Camera) (pt : Point)
    (h : cam.dirty = false) :
    Camera.transformStageToWorld cosf sinf cam pt =
      some (cam.scratchInverted.transformPoint pt, cam) := by
  simp [Camera.transformStageToWorld, h]

theorem c6_create : Camera.create 0 0 800 600 = c6CamDirty := by
  norm_num [Camera.create, Camera.updatedStageSize, Transform.setXY, Transform.setOrigin,
    Transform.setPivotPoint, Transform.setDirtyTrue, Transform.dirtyTrue, TNode.markDirty,
    Transform.updateNode, List.modify, TNode.fresh, c6CamDirty]

theorem c6_conv_dirty (pt : Point) :
    Camera.transformStageToWorld cos0 sin0 c6CamDirty pt = some (pt, c6CamClean) := by
  obtain ⟨px, py⟩ := pt
  norm_num [Camera.transformStageToWorld, Camera.clean, c6CamDirty, c6CamClean,
    Transform.getConcatenatedMatrix, Transform.performTransformation,
    Transform.updateNode, List.modify, TNode.fresh, cos0, sin0,
    Kiwi.Matrix.identity, Kiwi.Matrix.setToMatrix, Kiwi.Matrix.invert,
    Kiwi.Matrix.transformPoint]

theorem c6_conv_clean (pt : Point) :
    Camera.transformStageToWorld cos0 sin0 c6CamClean pt = some (pt, c6CamClean) := by
  obtain ⟨px, py⟩ := pt
  rw [trsw_clean_state _ _ _ _ rfl]
  norm_num [c6CamClean, Kiwi.Matrix.identity, Kiwi.Matrix.transformPoint]

end CameraHelpers
/-- C1: the claim says a transform mutation after an earlier stage/world
conversion makes the next conversion refresh the cached matrices.  The code
violates this: `Transformable` passes itself to `new Transform(this)` but the
`Transform` constructor ignores the owner, so nothing ever sets the camera's
`_dirty` flag back to `true`.  Evaluated at the failing input: a fresh
800×600 camera converts `(5,5)` (cleaning itself, both caches the identity),
its transform is then moved to `x = 100` (the transform is marked dirty but
the camera is not), and the next `transformStageToWorld` still returns
`(5,5)` from the stale cache, although the freshly recomputed concatenated
matrix would map `(5,5)` to `(-95,5)`. -/
theorem camera_stale_cache_after_transform_mutation :
    Camera.transformStageToWorld cos0 sin0 (Camera.create 0 0 800 600) ⟨5, 5⟩ =
      some (⟨5, 5⟩, staleCam1) ∧
    staleCam2.dirty = false ∧
    (staleCam2.store.getD 0 TNode.fresh).xy = ⟨100, 0⟩ ∧
    (staleCam2.store.getD 0 TNode.fresh).dirty = true ∧
    Camera.transformStageToWorld cos0 sin0 staleCam2 ⟨5, 5⟩ = some (⟨5, 5⟩, staleCam2) ∧
    (Transform.getConcatenatedMatrix cos0 sin0 1 staleCam2.store 0).map
      (fun r => r.1.invertCopy.transformPoint ⟨5, 5⟩) = some ⟨-95, 5⟩ ∧
    (⟨-95, 5⟩ : Point) ≠ ⟨5, 5⟩ := by
  norm_num [Camera.create, Camera.updatedStageSize, Camera.transformStageToWorld,
    Camera.clean, Camera.setTransformX, staleCam1, staleCam2,
    Transform.setXY, Transform.setX, Transform.setOrigin, Transform.setPivotPoint,
    Transform.setDirtyTrue, Transform.dirtyTrue, TNode.markDirty, Transform.updateNode,
    Transform.getConcatenatedMatrix, Transform.performTransformation,
    List.modify, TNode.fresh, cos0, sin0,
    Kiwi.Matrix.identity, Kiwi.Matrix.setToMatrix, Kiwi.Matrix.invert, Kiwi.Matrix.invertCopy,
    Kiwi.Matrix.clone, Kiwi.Matrix.multiplyMatrix, Kiwi.Matrix.transformPoint, Point.mk.injEq]

/-- C2: the claim says a parent assignment that would create a cycle is
detected and refused, leaving the parent field unchanged.  The code violates
this: `checkAncestor`'s body is commented out (marked `@TODO: implement
this`) and returns `false` unconditionally, so the self-assignment
`t.parent = t` on a fresh transform is accepted — afterwards the parent field
is `t` itself (and `t` was also pushed into its own children list), where the
claim requires the parent to remain `null`. -/
theorem transform_self_parent_installed :
    ((Transform.setParent soloStore 0 (some 0)).getD 0 TNode.fresh).parent = some 0 ∧
    ((Transform.setParent soloStore 0 (some 0)).getD 0 TNode.fresh).children = [0] ∧
    (soloStore.getD 0 TNode.fresh).parent = none ∧
    Transform.checkAncestor soloStore 0 (some 0) = false := by
  decide

/-- C3: on every chain-shaped transform store whose caches are coherent
(`Inv`), setting the position of ancestor `k` marks node `k` and every
descendant dirty, records the new position, and a subsequent
`getConcatenatedMatrix` on any descendant `j` returns exactly the
concatenation of the local matrices computed from the current (post-mutation)
field values — no stale cache. -/
theorem chain_position_mutation_dirties_and_refreshes (cosf sinf : ℚ → ℚ)
    (s : Store) (k j : Nat) (v : ℚ)
    (hcs : ChainShape s) (hinv : Inv cosf sinf s) (hk : k < s.length)
    (hkj : k ≤ j) (hj : j < s.length) :
    (∀ m : Nat, k ≤ m → m < s.length →
      ((Transform.setX s k v).getD m TNode.fresh).dirty = true) ∧
    ((Transform.setX s k v).getD k TNode.fresh).xy.x = v ∧
    ∃ s', Transform.getConcatenatedMatrix cosf sinf s.length (Transform.setX s k v) j =
      some (specConcat cosf sinf (Transform.setX s k v) j, s') := by
  refine ⟨setX_dirty_from s k v hcs, setX_getD_xy s k v hcs hk, ?_⟩
  exact getConcat_chain cosf sinf j (Transform.setX s k v) s.length
    (chainShape_setX s k v hcs) (inv_setX cosf sinf s k v hcs hinv)
    (by rw [setX_length]; omega) (by omega)

/-- C3 witness: the three-node chain built through the parent setter, with
`cosf`/`sinf` the exact values of cosine/sine at rotation 0 (the only
rotation occurring), position of the root set to 50, read at the leaf. -/
theorem chain_position_mutation_dirties_and_refreshes_witness :
    (ChainShape chain3 ∧ Inv cos0 sin0 chain3 ∧ 0 < chain3.length ∧
      (0 : Nat) ≤ 2 ∧ 2 < chain3.length) ∧
    ((∀ m : Nat, 0 ≤ m → m < chain3.length →
        ((Transform.setX chain3 0 50).getD m TNode.fresh).dirty = true) ∧
      ((Transform.setX chain3 0 50).getD 0 TNode.fresh).xy.x = 50 ∧
      ∃ s', Transform.getConcatenatedMatrix cos0 sin0 chain3.length
          (Transform.setX chain3 0 50) 2 =
        some (specConcat cos0 sin0 (Transform.setX chain3 0 50) 2, s')) :=
  ⟨⟨by decide, by decide, by decide, by decide, by decide⟩,
    chain_position_mutation_dirties_and_refreshes cos0 sin0 chain3 0 2 50
      (by decide) (by decide) (by decide) (by decide) (by decide)⟩
/-- C4 counterexample: the claim's rectangle upper bound `offset + dimensions`
does not match the code, which compares the local point against the
dimensions values themselves.  With offset `(10,10)`, dimensions `(32,32)`,
identity owner matrix and query point `(35,35)`, the point lies strictly
inside `(10,42)×(10,42)` as the claim words it, yet `check` returns
`false` (because `35 < 32` fails). -/
theorem box2_check_upper_bound_cex :
    Box2.check ⟨⟨10, 10⟩, ⟨32, 32⟩⟩ Kiwi.Matrix.identity ⟨35, 35⟩ = false ∧
    Box2.claimedInside ⟨⟨10, 10⟩, ⟨32, 32⟩⟩ Kiwi.Matrix.identity ⟨35, 35⟩ := by
  norm_num [Box2.check, Box2.claimedInside, Kiwi.Matrix.identity, Kiwi.Matrix.invertCopy,
    Kiwi.Matrix.invert, Kiwi.Matrix.clone, Kiwi.Matrix.transformPoint]

/-- C4 amended: for an owner matrix with nonzero determinant, `check(p)` is
true iff the unique preimage `q` of `p` under the owner's concatenated matrix
lies strictly inside the rectangle `(offset.x, dimensions.x) ×
(offset.y, dimensions.y)` — the upper bounds are the dimension values
themselves, not `offset + dimensions`. -/
theorem box2_check_strict_containment (box : Box2) (m : Kiwi.Matrix) (pt : Point)
    (h : m.det ≠ 0) :
    Box2.check box m pt = true ↔
      ∃ q : Point, m.transformPoint q = pt ∧
        box.offset.x < q.x ∧ q.x < box.dimensions.x ∧
        box.offset.y < q.y ∧ q.y < box.dimensions.y := by
  have hq0 : m.transformPoint ((m.invertCopy).transformPoint pt) = pt := by
    obtain ⟨a, b, c, d, tx, ty⟩ := m
    obtain ⟨px, py⟩ := pt
    have hn : a * d - b * c ≠ 0 := h
    simp only [Kiwi.Matrix.transformPoint, Kiwi.Matrix.invertCopy, Kiwi.Matrix.invert,
      Kiwi.Matrix.clone, Point.mk.injEq]
    constructor <;> field_simp <;> ring
  have huniq : ∀ q : Point, m.transformPoint q = pt →
      q = (m.invertCopy).transformPoint pt := by
    intro q hq
    obtain ⟨a, b, c, d, tx, ty⟩ := m
    obtain ⟨px, py⟩ := pt
    obtain ⟨qx, qy⟩ := q
    have hn : a * d - b * c ≠ 0 := h
    have hA : (Kiwi.Matrix.invertCopy ⟨a, b, c, d, tx, ty⟩).transformPoint ⟨px, py⟩ =
        ⟨(d * px - c * py - d * tx + c * ty) / (a * d - b * c),
         (a * py - b * px - a * ty + b * tx) / (a * d - b * c)⟩ := by
      simp only [Kiwi.Matrix.transformPoint, Kiwi.Matrix.invertCopy, Kiwi.Matrix.invert,
        Kiwi.Matrix.clone, Point.mk.injEq]
      constructor <;> field_simp <;> ring
    rw [hA]
    simp only [Kiwi.Matrix.transformPoint, Point.mk.injEq] at hq
    obtain ⟨hx, hy⟩ := hq
    simp only [Point.mk.injEq]
    constructor
    · rw [eq_div_iff hn]
      linear_combination d * hx - c * hy
    · rw [eq_div_iff hn]
      linear_combination a * hy - b * hx
  constructor
  · intro hc
    refine ⟨(m.invertCopy).transformPoint pt, hq0, ?_⟩
    have hc' := hc
    simp only [Box2.check, Bool.and_eq_true, decide_eq_true_eq] at hc'
    exact ⟨hc'.1.1.1, hc'.1.1.2, hc'.1.2, hc'.2⟩
  · rintro ⟨q, hq, h1, h2, h3, h4⟩
    have := huniq q hq
    subst this
    simp [Box2.check, h1, h2, h3, h4]

/-- C4 witness: the claim's own scenario — hit-box offset `(0,0)`, dimensions
`(32,32)`, owner translated to `(100,100)` (determinant 1), query point
`(115,115)`. -/
theorem box2_check_strict_containment_witness :
    (⟨1, 0, 0, 1, 100, 100⟩ : Kiwi.Matrix).det ≠ 0 ∧
    (Box2.check ⟨⟨0, 0⟩, ⟨32, 32⟩⟩ ⟨1, 0, 0, 1, 100, 100⟩ ⟨115, 115⟩ = true ↔
      ∃ q : Point, (⟨1, 0, 0, 1, 100, 100⟩ : Kiwi.Matrix).transformPoint q = ⟨115, 115⟩ ∧
        (0 : ℚ) < q.x ∧ q.x < 32 ∧ (0 : ℚ) < q.y ∧ q.y < 32) :=
  ⟨by norm_num [Kiwi.Matrix.det],
    box2_check_strict_containment ⟨⟨0, 0⟩, ⟨32, 32⟩⟩ ⟨1, 0, 0, 1, 100, 100⟩ ⟨115, 115⟩
      (by norm_num [Kiwi.Matrix.det])⟩

/-- C5: for every matrix with nonzero determinant, multiplying by
`invertCopy` gives the identity and inverting twice restores the matrix,
both entrywise within the specification's `1e-9` tolerance (over the exact
rational embedding the equalities are exact, so the tolerance holds
trivially). -/
theorem matrix_inversion_roundtrip (m : Kiwi.Matrix) (h : m.det ≠ 0) :
    (m.multiplyMatrix m.invertCopy).approxEq Kiwi.Matrix.identity ∧
    (m.invert.invert).approxEq m := by
  constructor
  · apply matrix_approxEq_of_eq
    rw [Kiwi.Matrix.invertCopy, matrix_clone_eq]
    exact matrix_mul_invert m h
  · exact matrix_approxEq_of_eq (matrix_invert_invert m h)

/-- C5 witness: the diagonal matrix `⟨2,0,0,3,5,7⟩` with determinant 6. -/
theorem matrix_inversion_roundtrip_witness :
    (⟨2, 0, 0, 3, 5, 7⟩ : Kiwi.Matrix).det ≠ 0 ∧
    (((⟨2, 0, 0, 3, 5, 7⟩ : Kiwi.Matrix).multiplyMatrix
        (⟨2, 0, 0, 3, 5, 7⟩ : Kiwi.Matrix).invertCopy).approxEq Kiwi.Matrix.identity ∧
      ((⟨2, 0, 0, 3, 5, 7⟩ : Kiwi.Matrix).invert.invert).approxEq ⟨2, 0, 0, 3, 5, 7⟩) :=
  ⟨by norm_num [Kiwi.Matrix.det],
    matrix_inversion_roundtrip ⟨2, 0, 0, 3, 5, 7⟩ (by norm_num [Kiwi.Matrix.det])⟩
/-- C6 counterexample: in the claim's exact scenario (camera at `(0,0)`,
stage 800×600, tiles 32×32, 100×100 layer at offset `(0,0)`, identity layer
matrix), `_calculateBoundaries` yields `startX = 0`, `maxX = 25`,
`startY = 0`, `maxY = 19` — 25 columns and 19 rows, not the "at least
`ceil(800/32)+1 = 26` columns and `ceil(600/32)+1 = 20` rows" the claim
requires (the viewport aligns exactly with tile boundaries, so floor/ceil
add no extra tile). -/
theorem tile_boundaries_scenario_cex :
    (calculateBoundaries cos0 sin0 800 600 layer100 (Camera.create 0 0 800 600)
      Kiwi.Matrix.identity).map Prod.fst = some ⟨0, 0, 25, 19⟩ ∧
    ¬ ∃ b : Boundaries,
        (calculateBoundaries cos0 sin0 800 600 layer100 (Camera.create 0 0 800 600)
          Kiwi.Matrix.identity).map Prod.fst = some b ∧
        26 ≤ b.maxX - b.startX ∧ 20 ≤ b.maxY - b.startY := by
  have h : (calculateBoundaries cos0 sin0 800 600 layer100 (Camera.create 0 0 800 600)
      Kiwi.Matrix.identity).map Prod.fst = some ⟨0, 0, 25, 19⟩ := by
    rw [c6_create]
    simp only [calculateBoundaries, c6_conv_dirty, c6_conv_clean, Option.bind_eq_bind,
      Option.some_bind]
    have h19 : (⌈(75 : ℚ) / 4⌉ : ℤ) = 19 := by norm_num [Int.ceil_eq_iff]
    have hceil : ((⌈(75 : ℚ) / 4⌉ : ℤ) : ℚ) = 19 := by rw [h19]; norm_num
    norm_num [clamp, layer100, Kiwi.Matrix.identity, Kiwi.Matrix.clone, Kiwi.Matrix.invert,
      Kiwi.Matrix.transformPointInPlace, min_def, max_def, Int.floor_eq_iff,
      Int.ceil_eq_iff, Boundaries.mk.injEq, hceil]
  refine ⟨h, ?_⟩
  rintro ⟨b, hb, h26, h20⟩
  rw [h, Option.some.injEq] at hb
  subst hb
  norm_num at h26

/-- C6 amended: in the same scenario the computed bounds are exactly
`startX = startY = 0`, `maxX = 25 = ceil(800/32)`, `maxY = 19 =
ceil(600/32)` — covering `ceil(W/tw)` columns and `ceil(H/th)` rows without
the extra `+1` (the camera-aligned viewport maps exactly onto tile
boundaries) — and all four values lie within the clamp range `[0, 100]`. -/
theorem tile_boundaries_scenario :
    (calculateBoundaries cos0 sin0 800 600 layer100 (Camera.create 0 0 800 600)
      Kiwi.Matrix.identity).map Prod.fst = some ⟨0, 0, 25, 19⟩ ∧
    ((25 : ℚ) = ((⌈(800 : ℚ) / 32⌉ : ℤ) : ℚ) ∧ (19 : ℚ) = ((⌈(600 : ℚ) / 32⌉ : ℤ) : ℚ)) ∧
    ((0 : ℚ) ≤ 0 ∧ (25 : ℚ) ≤ 100 ∧ (0 : ℚ) ≤ 0 ∧ (19 : ℚ) ≤ 100) := by
  refine ⟨?_, ⟨?_, ?_⟩, by norm_num⟩
  · rw [c6_create]
    simp only [calculateBoundaries, c6_conv_dirty, c6_conv_clean, Option.bind_eq_bind,
      Option.some_bind]
    have h19 : (⌈(75 : ℚ) / 4⌉ : ℤ) = 19 := by norm_num [Int.ceil_eq_iff]
    have hceil : ((⌈(75 : ℚ) / 4⌉ : ℤ) : ℚ) = 19 := by rw [h19]; norm_num
    norm_num [clamp, layer100, Kiwi.Matrix.identity, Kiwi.Matrix.clone, Kiwi.Matrix.invert,
      Kiwi.Matrix.transformPointInPlace, min_def, max_def, Int.floor_eq_iff,
      Int.ceil_eq_iff, Boundaries.mk.injEq, hceil]
  · have : (⌈(800 : ℚ) / 32⌉ : ℤ) = 25 := by norm_num [Int.ceil_eq_iff]
    rw [this]
    norm_num
  · have : (⌈(600 : ℚ) / 32⌉ : ℤ) = 19 := by norm_num [Int.ceil_eq_iff]
    rw [this]
    norm_num

/-- C7 counterexample: `addToBatch` does not inset the far edge.  With atlas
cell `{x=0, y=0, w=32, h=32}` the top-right vertex's `u` (element 7 of the
pushed record) is `32 = cell.x + cell.w`, not `31 = cell.x + cell.w - 1` as
the claim requires of every appended quad. -/
theorem addToBatch_uv_no_inset_cex :
    (addToBatch [] Kiwi.Matrix.identity ⟨0, 0, 32, 32⟩ 1)[7]? = some 32 ∧
    ¬ ((32 : ℚ) = 0 + 32 - 1) := by
  norm_num [addToBatch]

/-- C7 amended: only the tile layer's `renderGL` path insets the far-edge
texture coordinates by one (`cell.x + cell.w - 1`, `cell.y + cell.h - 1`,
near edge unchanged); the entity path `addToBatch` pushes the full extent
`cell.x + cell.w`, `cell.y + cell.h` with no inset. -/
theorem uv_inset_only_tile_path (m : Kiwi.Matrix) (cell : AtlasCell)
    (alpha tx ty : ℚ) (items : List ℚ) (h : 0 < alpha) :
    ((tileVertexItems m cell alpha tx ty)[7]? = some (cell.x + cell.w - 1) ∧
     (tileVertexItems m cell alpha tx ty)[12]? = some (cell.x + cell.w - 1) ∧
     (tileVertexItems m cell alpha tx ty)[13]? = some (cell.y + cell.h - 1) ∧
     (tileVertexItems m cell alpha tx ty)[18]? = some (cell.y + cell.h - 1) ∧
     (tileVertexItems m cell alpha tx ty)[2]? = some cell.x ∧
     (tileVertexItems m cell alpha tx ty)[3]? = some cell.y) ∧
    ((addToBatch items m cell alpha)[items.length + 7]? = some (cell.x + cell.w) ∧
     (addToBatch items m cell alpha)[items.length + 12]? = some (cell.x + cell.w) ∧
     (addToBatch items m cell alpha)[items.length + 13]? = some (cell.y + cell.h) ∧
     (addToBatch items m cell alpha)[items.length + 18]? = some (cell.y + cell.h) ∧
     (addToBatch items m cell alpha)[items.length + 2]? = some cell.x ∧
     (addToBatch items m cell alpha)[items.length + 3]? = some cell.y) := by
  have hns : ¬ alpha ≤ 0 := not_le.mpr h
  have happ : ∀ (l l' : List ℚ) (k : Nat), (l ++ l')[l.length + k]? = l'[k]? := by
    intro l l' k
    rw [List.getElem?_append_right (Nat.le_add_right _ _), Nat.add_sub_cancel_left]
  constructor
  · simp [tileVertexItems]
  · simp [addToBatch, hns, happ]

/-- C7 witness: identity matrix, atlas cell `{0,0,32,32}`, alpha 1, tile at
the origin, empty batch. -/
theorem uv_inset_only_tile_path_witness :
    (0 : ℚ) < 1 ∧
    (((tileVertexItems Kiwi.Matrix.identity ⟨0, 0, 32, 32⟩ 1 0 0)[7]? =
        some ((0 : ℚ) + 32 - 1) ∧
      (tileVertexItems Kiwi.Matrix.identity ⟨0, 0, 32, 32⟩ 1 0 0)[12]? =
        some ((0 : ℚ) + 32 - 1) ∧
      (tileVertexItems Kiwi.Matrix.identity ⟨0, 0, 32, 32⟩ 1 0 0)[13]? =
        some ((0 : ℚ) + 32 - 1) ∧
      (tileVertexItems Kiwi.Matrix.identity ⟨0, 0, 32, 32⟩ 1 0 0)[18]? =
        some ((0 : ℚ) + 32 - 1) ∧
      (tileVertexItems Kiwi.Matrix.identity ⟨0, 0, 32, 32⟩ 1 0 0)[2]? = some (0 : ℚ) ∧
      (tileVertexItems Kiwi.Matrix.identity ⟨0, 0, 32, 32⟩ 1 0 0)[3]? = some (0 : ℚ)) ∧
     ((addToBatch [] Kiwi.Matrix.identity ⟨0, 0, 32, 32⟩ 1)[List.length ([] : List ℚ) + 7]? =
        some ((0 : ℚ) + 32) ∧
      (addToBatch [] Kiwi.Matrix.identity ⟨0, 0, 32, 32⟩ 1)[List.length ([] : List ℚ) + 12]? =
        some ((0 : ℚ) + 32) ∧
      (addToBatch [] Kiwi.Matrix.identity ⟨0, 0, 32, 32⟩ 1)[List.length ([] : List ℚ) + 13]? =
        some ((0 : ℚ) + 32) ∧
      (addToBatch [] Kiwi.Matrix.identity ⟨0, 0, 32, 32⟩ 1)[List.length ([] : List ℚ) + 18]? =
        some ((0 : ℚ) + 32) ∧
      (addToBatch [] Kiwi.Matrix.identity ⟨0, 0, 32, 32⟩ 1)[List.length ([] : List ℚ) + 2]? =
        some (0 : ℚ) ∧
      (addToBatch [] Kiwi.Matrix.identity ⟨0, 0, 32, 32⟩ 1)[List.length ([] : List ℚ) + 3]? =
        some (0 : ℚ))) :=
  ⟨by norm_num,
    uv_inset_only_tile_path Kiwi.Matrix.identity ⟨0, 0, 32, 32⟩ 1 0 0 [] (by norm_num)⟩
/-- C8 counterexample: resizing a previously cleaned camera (the 800×600
camera after one conversion) sets its transform's origin to
`(-width/2, -height/2) = (-400, -300)` — not `(width/2, height/2) =
(400, 300)` as the claim states — and leaves the camera's own dirty flag
`false`, so the camera is not marked dirty by the resize. -/
theorem camera_resize_cex :
    ((Camera.updatedStageSize staleCam1 800 600).store.getD 0 TNode.fresh).origin =
      ⟨-400, -300⟩ ∧
    ((Camera.updatedStageSize staleCam1 800 600).store.getD 0 TNode.fresh).origin ≠
      ⟨400, 300⟩ ∧
    (Camera.updatedStageSize staleCam1 800 600).dirty = false := by
  norm_num [Camera.create, Camera.updatedStageSize, Camera.transformStageToWorld,
    Camera.clean, staleCam1,
    Transform.setXY, Transform.setOrigin, Transform.setPivotPoint,
    Transform.setDirtyTrue, Transform.dirtyTrue, TNode.markDirty, Transform.updateNode,
    Transform.getConcatenatedMatrix, Transform.performTransformation,
    List.modify, TNode.fresh, cos0, sin0,
    Kiwi.Matrix.identity, Kiwi.Matrix.setToMatrix, Kiwi.Matrix.invert,
    Kiwi.Matrix.transformPoint, Point.mk.injEq]

/-- C8 amended: `_updatedStageSize(width, height)` stores the new viewport
dimensions and sets the transform's origin and pivot to the NEGATIVE half
dimensions `(-width/2, -height/2)`, marking the transform dirty; the
camera's own dirty flag (which gates the cached stage/world matrices) is
left unchanged by the resize. -/
theorem camera_resize_negative_origin (cam : Camera) (w h : ℚ)
    (hne : 0 < cam.store.length) :
    ((Camera.updatedStageSize cam w h).store.getD 0 TNode.fresh).origin =
      ⟨-w / 2, -h / 2⟩ ∧
    ((Camera.updatedStageSize cam w h).store.getD 0 TNode.fresh).pivotPoint =
      ⟨-w / 2, -h / 2⟩ ∧
    ((Camera.updatedStageSize cam w h).store.getD 0 TNode.fresh).dirty = true ∧
    (Camera.updatedStageSize cam w h).dirty = cam.dirty ∧
    (Camera.updatedStageSize cam w h).width = w ∧
    (Camera.updatedStageSize cam w h).height = h := by
  have h0 := getElem_of_lt cam.store 0 hne
  set t0 := cam.store.getD 0 TNode.fresh with ht0
  set sa := Transform.updateNode cam.store 0
    (fun t => { t with origin := ⟨-w / 2, -h / 2⟩ }) with hsa
  have ha : sa[0]? = some { t0 with origin := ⟨-w / 2, -h / 2⟩ } := by
    simp [hsa, Transform.updateNode, List.getElem?_modify, h0]
  have hla : 0 < sa.length := by
    simp only [hsa, Transform.updateNode, List.length_modify]
    omega
  set sb := Transform.setDirtyTrue sa 0 with hsb
  have hb : sb[0]? = some (TNode.markDirty { t0 with origin := ⟨-w / 2, -h / 2⟩ }) := by
    rw [hsb, setDirtyTrue_getElem_self sa 0 hla, ha]
    rfl
  have hlb : 0 < sb.length := by
    rw [hsb, length_eq_of_markedFrom (markedFrom_setDirtyTrue sa 0)]
    exact hla
  set sc := Transform.updateNode sb 0
    (fun t => { t with pivotPoint := ⟨-w / 2, -h / 2⟩ }) with hsc
  have hc : sc[0]? = some { TNode.markDirty { t0 with origin := ⟨-w / 2, -h / 2⟩ } with
      pivotPoint := ⟨-w / 2, -h / 2⟩ } := by
    simp [hsc, Transform.updateNode, List.getElem?_modify, hb]
  have hlc : 0 < sc.length := by
    simp only [hsc, Transform.updateNode, List.length_modify]
    omega
  have hd : (Transform.setDirtyTrue sc 0)[0]? =
      some (TNode.markDirty { TNode.markDirty { t0 with origin := ⟨-w / 2, -h / 2⟩ } with
        pivotPoint := ⟨-w / 2, -h / 2⟩ }) := by
    rw [setDirtyTrue_getElem_self sc 0 hlc, hc]
    rfl
  have hstore : (Camera.updatedStageSize cam w h).store = Transform.setDirtyTrue sc 0 := by
    simp only [Camera.updatedStageSize, Transform.setPivotPoint, Transform.setOrigin,
      hsc, hsb, hsa]
  refine ⟨?_, ?_, ?_, rfl, rfl, rfl⟩ <;>
    rw [hstore, List.getD_eq_getElem?_getD, hd] <;> simp [TNode.markDirty]

/-- C8 witness: a camera holding one fresh transform, resized to 800×600. -/
theorem camera_resize_negative_origin_witness :
    0 < simpleCam.store.length ∧
    (((Camera.updatedStageSize simpleCam 800 600).store.getD 0 TNode.fresh).origin =
        ⟨-800 / 2, -600 / 2⟩ ∧
      ((Camera.updatedStageSize simpleCam 800 600).store.getD 0 TNode.fresh).pivotPoint =
        ⟨-800 / 2, -600 / 2⟩ ∧
      ((Camera.updatedStageSize simpleCam 800 600).store.getD 0 TNode.fresh).dirty = true ∧
      (Camera.updatedStageSize simpleCam 800 600).dirty = simpleCam.dirty ∧
      (Camera.updatedStageSize simpleCam 800 600).width = 800 ∧
      (Camera.updatedStageSize simpleCam 800 600).height = 600) :=
  ⟨by decide, camera_resize_negative_origin simpleCam 800 600 (by decide)⟩

/-- C9: `postMultiply` never modifies the receiver (its body computes
`multiplyMatrix`, which builds a fresh matrix, and discards the result),
unlike `preMultiplyMatrix`, which does overwrite the receiver. -/
theorem postMultiply_discards_product :
    (∀ m b' : Kiwi.Matrix, m.postMultiply b' = m) ∧
    (∃ m b' : Kiwi.Matrix, m.preMultiplyMatrix b' ≠ m) := by
  refine ⟨fun m b' => rfl, ⟨Kiwi.Matrix.identity, ⟨1, 0, 0, 1, 5, 0⟩, ?_⟩⟩
  norm_num [Kiwi.Matrix.preMultiplyMatrix, Kiwi.Matrix.setToMatrix, Kiwi.Matrix.clone,
    Kiwi.Matrix.multiplyMatrix, Kiwi.Matrix.identity, Kiwi.Matrix.mk.injEq]

/-- C10: the parent setter pushes the assigned transform onto the parent's
children list unconditionally (the push precedes the — constantly false —
ancestor check), so the children list after `setParent` is the old list with
the child appended; assigning the same parent twice therefore duplicates the
child (`[1, 1]`), and the dirty cascade from the parent visits the duplicated
child once per occurrence (visit trace `[0, 1, 1]`, the child visited
twice). -/
theorem parent_setter_appends_unconditionally (s : Store) (i p : Nat)
    (hp : p < s.length) :
    childrenOf (Transform.setParent s i (some p)) p = childrenOf s p ++ [i] ∧
    (childrenOf doubleParented 0 = [1, 1] ∧
      (Transform.dirtyTrue doubleParented.length doubleParented 0).2 = [0, 1, 1] ∧
      (Transform.dirtyTrue doubleParented.length doubleParented 0).2.count 1 = 2 ∧
      (doubleParented.getD 1 TNode.fresh).parent = some 0) :=
  ⟨setParent_appends_child s i p hp, by decide, by decide, by decide, by decide⟩

/-- C10 witness: a two-node store, assigning node 1's parent to node 0. -/
theorem parent_setter_appends_unconditionally_witness :
    0 < ([TNode.fresh, TNode.fresh] : Store).length ∧
    (childrenOf (Transform.setParent [TNode.fresh, TNode.fresh] 1 (some 0)) 0 =
        childrenOf [TNode.fresh, TNode.fresh] 0 ++ [1] ∧
      (childrenOf doubleParented 0 = [1, 1] ∧
        (Transform.dirtyTrue doubleParented.length doubleParented 0).2 = [0, 1, 1] ∧
        (Transform.dirtyTrue doubleParented.length doubleParented 0).2.count 1 = 2 ∧
        (doubleParented.getD 1 TNode.fresh).parent = some 0)) :=
  ⟨by decide, parent_setter_appends_unconditionally [TNode.fresh, TNode.fresh] 1 0 (by decide)⟩
